import Mathlib

/-
Verification of the ai-news-digest pipeline core
(src/execution/ai_news_digest.py) against its specification.

Modelling conventions:
* Python strings are modelled as `List Char`; `str.lower()` as a
  character-wise `Char.toLower` map.
* Python `float` arithmetic on scores, similarity ratios and timestamps is
  modelled exactly over `ℚ`.  The comparisons the program performs
  (`similarity > 0.6`, `hours_old <= 12`, ...) compare a quotient of small
  integers against a small decimal constant; for every input size the
  program can encounter the rounded-float comparison and the exact rational
  comparison agree, so `ℚ` is a faithful model.
* Timestamps (`datetime`) are modelled as epoch seconds in `ℚ`;
  `datetime.now()` is passed in explicitly as `now`.
* Records are Python dicts mutated in place; we model the record list
  functionally, identifying records by their list position.
* Network I/O is abstracted by an environment `env : String → HttpResult`
  giving, per link, either an exception (`failure`) or the relevant
  extracted parts of the fetched page; `clean_html` (BeautifulSoup-based
  HTML stripping, not embeddable) is an explicit function parameter.
  On tag-free, whitespace-normalized text `clean_html` is the identity,
  which is what concrete instantiations below use.
* The thread pool of `enrich_summaries` is modelled by a per-task
  predicate `completed : Nat → Bool` saying whether the task for the
  record at a given index finished within the 30-second window of
  `as_completed(futures, timeout=30)`; the `TimeoutError` that
  `as_completed` raises when some task is unfinished is modelled by
  `Except.error ()` (the `try/except` in the source wraps only
  `future.result()`, not the iteration itself, so that error escapes).
-/

namespace NewsDigest

/-! ## Truncator (`truncate_summary`, source lines 71-90) -/

/-- Python `str.rfind` on a list of characters: the largest index at which
`c` occurs, `-1` when it does not occur. -/
def rfind (l : List Char) (c : Char) : Int :=
  match l with
  | [] => -1
  | a :: rest =>
    let r := rfind rest c
    if 0 ≤ r then r + 1
    else if a = c then 0 else -1

/-- The ellipsis marker `"..."` appended by the Truncator. -/
def ellipsis : List Char := ['.', '.', '.']

/-- `truncate_summary(text, max_length)` (source lines 71-90).
`if not text or len(text) <= max_length` collapses to the length test,
since the empty string always has length `≤ max_length`.
The float comparison `cut_point > max_length * 0.5` is the exact integer
comparison `2 * cut_point > max_length`. -/
def truncate_summary (text : List Char) (max_length : Nat) : List Char :=
  if text.length ≤ max_length then text
  else
    let truncated := text.take max_length
    let last_period := rfind truncated '.'
    let last_question := rfind truncated '?'
    let last_exclaim := rfind truncated '!'
    let cut_point := max (max last_period last_question) last_exclaim
    if (max_length : Int) < 2 * cut_point then
      text.take (cut_point.toNat + 1)
    else
      let last_space := rfind truncated ' '
      if 0 < last_space then text.take last_space.toNat ++ ellipsis
      else truncated ++ ellipsis

/-! ## Record model (§3 of the spec; the dicts built by the connectors) -/

/-- The record flowing through the pipeline (the article dict of the
source).  `published` is epoch seconds; `score` is the slot filled by
`calculate_score` in `main` (0 until then). -/
structure Article where
  title : List Char
  link : String
  summary : List Char
  source : String
  category : String
  published : ℚ
  engagement : ℤ
  needs_summary : Bool
  score : ℚ
deriving DecidableEq

/-! ## Page fetching model (`fetch_article_summary`, source lines 93-123) -/

/-- The parts of a fetched HTML page that `fetch_article_summary` inspects:
the HTTP status, the `content` attribute of the description meta tag when
that tag is present, likewise for `og:description`, and the raw `str(p)`
texts of the `<p>` elements of `article`/`main`/`body` (`none` when no
such content region exists). -/
structure Page where
  status : Nat
  metaDesc : Option (List Char)
  ogDesc : Option (List Char)
  paragraphs : Option (List (List Char))
deriving DecidableEq

/-- Outcome of `requests.get`: an exception (network error, timeout) or a
response page. -/
inductive HttpResult where
  | failure : HttpResult
  | response : Page → HttpResult
deriving DecidableEq

/-- The paragraph fallback of `fetch_article_summary`: over `paragraphs[:3]`,
return `truncate_summary(clean_html(str(p)))` (default budget 280) for the
first paragraph whose cleaned text is longer than 100 characters. -/
def tryParagraphs (clean : List Char → List Char) : List (List Char) → List Char
  | [] => []
  | p :: ps =>
    let text := clean p
    if 100 < text.length then truncate_summary text 280
    else tryParagraphs clean ps

/-- `article = soup.find("article") or soup.find("main") or soup.body`;
when present, scan its first three paragraphs. -/
def fromParagraphs (clean : List Char → List Char) (pg : Page) : List Char :=
  match pg.paragraphs with
  | none => []
  | some ps => tryParagraphs clean (ps.take 3)

/-- The `og:description` step: a present, non-empty `content` attribute is
returned cleaned; otherwise fall through to the paragraphs. -/
def fromOg (clean : List Char → List Char) (pg : Page) : List Char :=
  match pg.ogDesc with
  | some c => if c ≠ [] then clean c else fromParagraphs clean pg
  | none => fromParagraphs clean pg

/-- `fetch_article_summary(url)` (source lines 93-123), as a function of the
fetch outcome for `url`.  Any exception is caught and yields `""`; a
non-200 status yields `""`; then meta description, og:description and the
first long paragraph are tried in order.  Note that the meta and og paths
return the cleaned content *without* truncation. -/
def fetch_article_summary (clean : List Char → List Char) (r : HttpResult) : List Char :=
  match r with
  | HttpResult.failure => []
  | HttpResult.response pg =>
    if pg.status ≠ 200 then []
    else
      match pg.metaDesc with
      | some c => if c ≠ [] then clean c else fromOg clean pg
      | none => fromOg clean pg

/-! ## Enricher (`enrich_summaries`, source lines 511-538) -/

/-- Selection predicate `a.get("needs_summary") and a.get("link")`
(truthiness of the link is non-emptiness). -/
def needsFetch (a : Article) : Bool :=
  a.needs_summary && !a.link.isEmpty

/-- The comment-page skip of `fetch_one`:
`"reddit.com" in article["link"] or "news.ycombinator.com" in article["link"]`. -/
def isCommentPage (link : String) : Bool :=
  decide ("reddit.com".toList <:+: link.toList) ||
    decide ("news.ycombinator.com".toList <:+: link.toList)

/-- The worker task `fetch_one(article)`: skip comment pages, otherwise
fetch; a non-empty result is written back and `needs_summary` cleared,
an empty result leaves the record unchanged. -/
def fetch_one (clean : List Char → List Char) (env : String → HttpResult)
    (a : Article) : Article :=
  if isCommentPage a.link then a
  else
    let s := fetch_article_summary clean (env a.link)
    if s ≠ [] then { a with summary := s, needs_summary := false } else a

/-- Indices (positions in the input list) of the records submitted to the
pool: the first 20 of those satisfying `needsFetch`, in input order
(`needs_summary[:20]` in the source). -/
def selectedIdx (articles : List Article) : List Nat :=
  (((articles.enum).filter (fun p => needsFetch p.2)).map Prod.fst).take 20

/-- In-place mutation of the records at the selected indices, modelled
functionally: the record at absolute index `i + k` (where `k` is the
position within `l`) is replaced by `f` of itself when selected. -/
def applySel (f : Article → Article) (sel : List Nat) (i : Nat) :
    List Article → List Article
  | [] => []
  | a :: rest => (if i ∈ sel then f a else a) :: applySel f sel (i + 1) rest

/-- `enrich_summaries(articles)` (source lines 511-538).  If no record
needs fetching, the list is returned untouched.  Otherwise the first 20
needy records are submitted to the pool; when every submitted task
completes within the 30-second window of `as_completed(futures, timeout=30)`
the mutated list is returned, and otherwise `as_completed` raises
`concurrent.futures.TimeoutError` — the surrounding `try/except` guards
only `future.result()`, not the `for` iteration, so the exception
propagates to the caller (`Except.error ()`). -/
def enrich_summaries (clean : List Char → List Char) (env : String → HttpResult)
    (completed : Nat → Bool) (articles : List Article) : Except Unit (List Article) :=
  if (articles.filter needsFetch).isEmpty then Except.ok articles
  else
    let sel := selectedIdx articles
    if sel.all completed then
      Except.ok (applySel (fetch_one clean env) sel 0 articles)
    else Except.error ()

/-! ## Scorer (`calculate_score`, source lines 545-585) -/

/-- The high-quality source allow-list of `calculate_score`. -/
def high_quality_sources : List String :=
  ["OpenAI Blog", "Anthropic Research", "Google AI Blog", "DeepMind Blog",
   "MIT Tech Review", "arXiv", "Papers With Code"]

/-- The keys of `RSS_FEEDS_NEWS` (membership test `article["source"] in
RSS_FEEDS_NEWS` tests dict keys). -/
def rss_news_sources : List String :=
  ["TechCrunch AI", "VentureBeat AI", "The Verge AI", "Ars Technica AI",
   "MIT Tech Review", "Wired AI"]

/-- Recency bucket (0-40): `hours_old = (now - published).total_seconds()/3600`. -/
def recency_score (published now : ℚ) : ℚ :=
  let hours_old := (now - published) / 3600
  if hours_old ≤ 12 then 40
  else if hours_old ≤ 24 then 30
  else if hours_old ≤ 48 then 20
  else 10

/-- Engagement bucket (0-40). -/
def engagement_score (engagement : ℤ) : ℚ :=
  if 500 < engagement then 40
  else if 200 < engagement then 30
  else if 100 < engagement then 20
  else if 50 < engagement then 10
  else 0

/-- Source-quality bucket (0-20).  `"MIT Tech Review"` is in both lists and
takes the first branch. -/
def source_score (source : String) : ℚ :=
  if source ∈ high_quality_sources then 20
  else if source ∈ rss_news_sources then 10
  else 0

/-- Summary-quality bucket (0-10):
`if article.get("summary") and len(article["summary"]) > 100` — the
truthiness conjunct is implied by the length test. -/
def summary_quality_score (summary : List Char) : ℚ :=
  if 100 < summary.length then 10 else 0

/-- `calculate_score(article)` (source lines 545-585): `score` starts at 0
and the four buckets are added in sequence. -/
def calculate_score (a : Article) (now : ℚ) : ℚ :=
  recency_score a.published now + engagement_score a.engagement +
    source_score a.source + summary_quality_score a.summary

/-! ## difflib.SequenceMatcher ratio (stdlib, used by `deduplicate_articles`)

The deduplicator calls `SequenceMatcher(None, title, seen).ratio()`.  The
following is a direct embedding of CPython's `difflib` for
`isjunk=None, autojunk=True`: `b2j` maps each character of `b` to its
ascending occurrence indices, dropping "popular" characters when
`len(b) >= 200`; `find_longest_match` runs the `j2len` dynamic pass and
then the two junk-free extension loops (the two `isbjunk` extension loops
can never fire since `isjunk is None` makes `bjunk` empty);
`get_matching_blocks` recurses on the regions left and right of each
longest match.  The region recursion is driven by a fuel counter that
dominates the number of regions ever processed (matched blocks are
disjoint in `a`, so at most `len(a)` regions split and at most
`2*len(a)+1` are ever queued), so the fuel never runs out. -/

/-- `b2j` of `SequenceMatcher.__chain_b`: ascending occurrence indices of
`c` in `b`, with popular characters deleted when `len(b) >= 200`
(`len(indices) > len(b) // 100 + 1`). -/
def b2j (b : List Char) (c : Char) : List Nat :=
  let idxs := ((b.enum).filter (fun p => p.2 == c)).map Prod.fst
  if 200 ≤ b.length ∧ b.length / 100 + 1 < idxs.length then [] else idxs

/-- Lookup in an association list with default 0 (`dict.get(j, 0)`). -/
def lookup0 (m : List (Nat × Nat)) (j : Nat) : Nat :=
  match m.find? (fun p => p.1 == j) with
  | some p => p.2
  | none => 0

/-- Inner `for j in b2j.get(a[i], nothing)` loop of `find_longest_match`:
`j < blo` is `continue`, `j >= bhi` is `break` (the index lists ascend),
`k = newj2len[j] = j2len.get(j-1, 0) + 1` (the Python key `-1` is never
present, hence the `j = 0` guard), and a larger `k` updates the best
match.  Returns the accumulated `newj2len` and the best triple. -/
def flmJs (i blo bhi : Nat) :
    List Nat → List (Nat × Nat) → List (Nat × Nat) → Nat × Nat × Nat →
    List (Nat × Nat) × (Nat × Nat × Nat)
  | [], _, acc, best => (acc, best)
  | j :: js, j2len, acc, best =>
    if j < blo then flmJs i blo bhi js j2len acc best
    else if bhi ≤ j then (acc, best)
    else
      let k := (if j = 0 then 0 else lookup0 j2len (j - 1)) + 1
      let best' := if best.2.2 < k then (i + 1 - k, j + 1 - k, k) else best
      flmJs i blo bhi js j2len ((j, k) :: acc) best'

/-- Outer `for i in range(alo, ahi)` loop of `find_longest_match`. -/
def flmOuter (a : List Char) (bj : Char → List Nat) (blo bhi : Nat) :
    List Nat → List (Nat × Nat) → Nat × Nat × Nat → Nat × Nat × Nat
  | [], _, best => best
  | i :: is, j2len, best =>
    let r := flmJs i blo bhi (bj (a.getD i ' ')) j2len [] best
    flmOuter a bj blo bhi is r.1 r.2

/-- First extension loop: extend the best block leftwards while the
preceding characters match (`isbjunk` is constantly false).  The fuel
`besti - alo` bounds the iteration count exactly. -/
def extendLeft (a b : List Char) (alo blo : Nat) :
    Nat → Nat × Nat × Nat → Nat × Nat × Nat
  | 0, best => best
  | fuel + 1, (bi, bj, bs) =>
    if alo < bi ∧ blo < bj ∧ a.getD (bi - 1) ' ' = b.getD (bj - 1) ' ' then
      extendLeft a b alo blo fuel (bi - 1, bj - 1, bs + 1)
    else (bi, bj, bs)

/-- Second extension loop: extend the best block rightwards while the
following characters match. -/
def extendRight (a b : List Char) (ahi bhi : Nat) :
    Nat → Nat × Nat × Nat → Nat × Nat × Nat
  | 0, best => best
  | fuel + 1, (bi, bj, bs) =>
    if bi + bs < ahi ∧ bj + bs < bhi ∧ a.getD (bi + bs) ' ' = b.getD (bj + bs) ' ' then
      extendRight a b ahi bhi fuel (bi, bj, bs + 1)
    else (bi, bj, bs)

/-- `find_longest_match(alo, ahi, blo, bhi)` for junk-free matching. -/
def find_longest_match (a b : List Char) (bj : Char → List Nat)
    (alo ahi blo bhi : Nat) : Nat × Nat × Nat :=
  let best := flmOuter a bj blo bhi (List.range' alo (ahi - alo)) [] (alo, blo, 0)
  let best := extendLeft a b alo blo (best.1 - alo) best
  extendRight a b ahi bhi (ahi - (best.1 + best.2.2)) best

/-- The region recursion of `get_matching_blocks`, summing the block sizes
(the final sort/merge of the blocks does not change the sum).  The queue
is a stack (`queue.pop()` pops the end); `fuel` bounds the number of pops
and is chosen large enough that it never runs out. -/
def gmbGo (a b : List Char) (bj : Char → List Nat) :
    Nat → List (Nat × Nat × Nat × Nat) → Nat
  | _, [] => 0
  | 0, _ :: _ => 0
  | fuel + 1, (alo, ahi, blo, bhi) :: queue =>
    let m := find_longest_match a b bj alo ahi blo bhi
    let i := m.1
    let j := m.2.1
    let k := m.2.2
    if k = 0 then gmbGo a b bj fuel queue
    else
      let q1 := if alo < i ∧ blo < j then (alo, i, blo, j) :: queue else queue
      let q2 := if i + k < ahi ∧ j + k < bhi then (i + k, ahi, j + k, bhi) :: q1 else q1
      k + gmbGo a b bj fuel q2

/-- `matches = sum(triple[-1] for triple in self.get_matching_blocks())`. -/
def matchesTotal (a b : List Char) : Nat :=
  gmbGo a b (b2j b) (2 * (a.length + b.length) + 2) [(0, a.length, 0, b.length)]

/-- `SequenceMatcher(None, a, b).ratio()`:
`2.0 * matches / (len(a) + len(b))`, and 1.0 for two empty sequences
(`_calculate_ratio`). -/
def similarity (a b : List Char) : ℚ :=
  if a.length + b.length = 0 then 1
  else 2 * (matchesTotal a b : ℚ) / ((a.length : ℚ) + (b.length : ℚ))

/-! ## Deduplicator (`deduplicate_articles`, source lines 588-607) -/

/-- The lower-cased title used for similarity comparison. -/
def lowered (a : Article) : List Char := a.title.map Char.toLower

/-- The accumulating loop of `deduplicate_articles`: `seen` is the list of
already-accepted lower-cased titles; a candidate whose similarity with any
of them exceeds 0.6 (exactly 3/5) is discarded, otherwise it is accepted
and its title appended. -/
def dedupAux (seen : List (List Char)) : List Article → List Article
  | [] => []
  | a :: rest =>
    let t := lowered a
    if seen.any (fun s => decide ((3 : ℚ) / 5 < similarity t s)) then
      dedupAux seen rest
    else a :: dedupAux (seen ++ [t]) rest

/-- `deduplicate_articles(articles)` (source lines 588-607). -/
def deduplicate_articles (articles : List Article) : List Article :=
  dedupAux [] articles

/-! ## Ranker/Grouper (the grouping logic of `format_html_email`,
source lines 614-696) -/

def CATEGORY_NEW_TECH : String := "New Technology"

def CATEGORY_RESEARCH : String := "Research"

def CATEGORY_INDUSTRY : String := "Industry & Macro"

def CATEGORY_COMMUNITY : String := "Community Highlights"

/-- The fixed category emission order of `format_html_email`. -/
def category_order : List String :=
  [CATEGORY_NEW_TECH, CATEGORY_RESEARCH, CATEGORY_INDUSTRY, CATEGORY_COMMUNITY]

/-- `by_category[cat]`: the dict built by appending each article to its
category bucket preserves input order, so the bucket is the order-preserving
filter. -/
def bucket (articles : List Article) (cat : String) : List Article :=
  articles.filter (fun a => a.category == cat)

/-- The grouping that `format_html_email` renders: for each category in the
fixed order, skip it when absent from `by_category` (empty bucket), and
otherwise keep `by_category[category][:5]`. -/
def email_groups (articles : List Article) : List (String × List Article) :=
  category_order.filterMap (fun cat =>
    if (bucket articles cat).isEmpty then none
    else some (cat, (bucket articles cat).take 5))

/-! ## Concrete fixtures used by example-level theorems -/

/-- A neutral base record for concrete instantiations. -/
def baseArticle : Article :=
  { title := "Example article".toList
    link := "https://example.com/a"
    summary := []
    source := "Example News"
    category := CATEGORY_INDUSTRY
    published := 0
    engagement := 0
    needs_summary := true
    score := 0 }

/-- Record A of the spec's concrete scoring scenario: published 1 hour
before `now = 1000000`, engagement 600, high-quality source, a
150-character summary. -/
def recordA : Article :=
  { baseArticle with
    source := "OpenAI Blog"
    summary := List.replicate 150 'x'
    published := 996400
    engagement := 600 }

/-- Record B of the spec's concrete scoring scenario: published 60 hours
before `now = 1000000`, engagement 10, unlisted source, empty summary. -/
def recordB : Article :=
  { baseArticle with
    published := 784000
    engagement := 10 }

/-- A page whose description meta tag carries 400 characters of plain
text: `fetch_article_summary` returns it uncleaned-length intact. -/
def longMetaPage : Page :=
  { status := 200
    metaDesc := some (List.replicate 400 'a')
    ogDesc := none
    paragraphs := none }

/-- `baseArticle` after enrichment against `longMetaPage`: the
400-character meta description is written back untruncated. -/
def enrichedBase : Article :=
  { baseArticle with
    summary := List.replicate 400 'a'
    needs_summary := false }

/-- A scored Research record, for concrete grouping instances. -/
def researchA : Article :=
  { baseArticle with
    category := CATEGORY_RESEARCH
    needs_summary := false
    score := 5 }

/-- A second, lower-scored Research record. -/
def researchB : Article :=
  { baseArticle with
    title := "Another research item".toList
    category := CATEGORY_RESEARCH
    needs_summary := false
    score := 3 }

/-! # Theorems -/

/-! ## Truncator properties -/

theorem rfind_lt_length (l : List Char) (c : Char) : rfind l c < (l.length : Int) := by
  induction l with
  | nil => simp [rfind]
  | cons a rest ih =>
    simp only [rfind, List.length_cons]
    split
    · push_cast; omega
    · split <;> push_cast <;> omega

theorem truncate_eq_of_le (text : List Char) (n : Nat) (h : text.length ≤ n) :
    truncate_summary text n = text := by
  simp [truncate_summary, h]

theorem truncate_length_le (text : List Char) (n : Nat) :
    (truncate_summary text n).length ≤ n + 3 := by
  have hT : ((text.take n).length : Int) ≤ (n : Int) := by
    exact_mod_cast List.length_take_le n text
  have hp := lt_of_lt_of_le (rfind_lt_length (text.take n) '.') hT
  have hq := lt_of_lt_of_le (rfind_lt_length (text.take n) '?') hT
  have he := lt_of_lt_of_le (rfind_lt_length (text.take n) '!') hT
  have hs := lt_of_lt_of_le (rfind_lt_length (text.take n) ' ') hT
  have hmax := max_lt (max_lt hp hq) he
  simp only [truncate_summary]
  split_ifs with h0 h1 h2
  · omega
  · have hle := List.length_take_le
      ((max (max (rfind (text.take n) '.') (rfind (text.take n) '?'))
        (rfind (text.take n) '!')).toNat + 1) text
    omega
  · have hle := List.length_take_le (rfind (text.take n) ' ').toNat text
    simp only [List.length_append, ellipsis, List.length_cons, List.length_nil]
    omega
  · have hle := List.length_take_le n text
    simp only [List.length_append, ellipsis, List.length_cons, List.length_nil]
    omega

/-- C3: the claim states the word-boundary case of `truncate_summary` yields
a result of length at most `n`; in fact the ellipsis is appended after the
boundary, so the bound `n` fails.  Witness: `s = "abcdefgh i k"` (length 12)
with `n = 10`: the prefix of length 10 contains a space, no sentence
terminator fires, and the result `"abcdefgh..."` has length 11 > 10. -/
theorem c3_truncate_bound_counterexample :
    10 < ("abcdefgh i k".toList).length ∧
      ' ' ∈ ("abcdefgh i k".toList.take 10) ∧
      10 < (truncate_summary ("abcdefgh i k".toList) 10).length := by
  decide

/-- C3 (amended): for every string `s` and every `n`,
`truncate_summary s n = s` whenever `len s ≤ n`, and otherwise the result
has length at most `n + len("...") = n + 3` in every case — including the
word-boundary case, where the ellipsis appended after the boundary can push
the length past `n` (but never past `n + 3`). -/
theorem c3_truncate_bound (s : List Char) (n : Nat) :
    (s.length ≤ n → truncate_summary s n = s) ∧
      (truncate_summary s n).length ≤ n + 3 :=
  ⟨truncate_eq_of_le s n, truncate_length_le s n⟩

theorem c3_truncate_bound_witness :
    truncate_summary ("hi".toList) 5 = "hi".toList ∧
      (truncate_summary ("abcdefgh i k".toList) 10).length ≤ 10 + 3 :=
  ⟨(c3_truncate_bound ("hi".toList) 5).1 (by decide),
   (c3_truncate_bound ("abcdefgh i k".toList) 10).2⟩

/-! ## Enrichment summary paths (C2) -/

set_option maxRecDepth 8000 in
/-- C2: the claim states every enrichment summary passes through the
Truncator with a 300-character budget before being written back.  In fact
the meta-description path returns the cleaned content with no truncation
at all: a page whose description meta tag holds 400 plain characters makes
`enrich_summaries` write back a 400-character summary, exceeding the
claimed `300 + len("...")` bound. -/
theorem c2_truncation_counterexample :
    enrich_summaries (fun l => l) (fun _ => HttpResult.response longMetaPage)
        (fun _ => true) [baseArticle] =
      Except.ok [enrichedBase] ∧
      300 + 3 < enrichedBase.summary.length := by
  constructor
  · rfl
  · decide

/-- C2 (amended): a summary resolved from the meta description or the
og:description is written back after HTML cleaning with *no* truncation
(its length is unbounded); only the first-paragraph path truncates, and it
uses `truncate_summary`'s default 280-character budget, so every
paragraph-derived summary has length at most 280 + 3 = 283. -/
theorem c2_summary_paths (clean : List Char → List Char) (pg : Page)
    (ps : List (List Char)) :
    (∀ c, pg.status = 200 → pg.metaDesc = some c → c ≠ [] →
        fetch_article_summary clean (HttpResult.response pg) = clean c) ∧
    (∀ c, pg.status = 200 → pg.metaDesc = none → pg.ogDesc = some c → c ≠ [] →
        fetch_article_summary clean (HttpResult.response pg) = clean c) ∧
    (tryParagraphs clean ps).length ≤ 283 := by
  refine ⟨?_, ?_, ?_⟩
  · intro c h200 hm hc
    simp [fetch_article_summary, h200, hm, hc]
  · intro c h200 hm ho hc
    simp [fetch_article_summary, fromOg, h200, hm, ho, hc]
  · induction ps with
    | nil => simp [tryParagraphs]
    | cons p rest ih =>
      simp only [tryParagraphs]
      split
      · have := truncate_length_le (clean p) 280
        omega
      · exact ih

theorem c2_summary_paths_witness :
    fetch_article_summary (fun l => l) (HttpResult.response longMetaPage) =
        List.replicate 400 'a' ∧
      (tryParagraphs (fun l => l) ([] : List (List Char))).length ≤ 283 :=
  ⟨(c2_summary_paths (fun l => l) longMetaPage []).1 (List.replicate 400 'a')
      rfl rfl (by decide),
   (c2_summary_paths (fun l => l) longMetaPage []).2.2⟩

/-! ## Scorer properties (C5, C7) -/

theorem recency_score_bounds (p now : ℚ) :
    10 ≤ recency_score p now ∧ recency_score p now ≤ 40 := by
  simp only [recency_score]
  split_ifs <;> norm_num

theorem engagement_score_bounds (e : ℤ) :
    0 ≤ engagement_score e ∧ engagement_score e ≤ 40 := by
  unfold engagement_score
  split_ifs <;> norm_num

theorem source_score_bounds (s : String) :
    0 ≤ source_score s ∧ source_score s ≤ 20 := by
  unfold source_score
  split_ifs <;> norm_num

theorem summary_quality_score_bounds (s : List Char) :
    0 ≤ summary_quality_score s ∧ summary_quality_score s ≤ 10 := by
  unfold summary_quality_score
  split_ifs <;> norm_num

/-- C5: `calculate_score` is the sum of the four additive buckets; the
spec's two concrete scenarios evaluate to 110 and 10 (at
`now = 1000000` epoch seconds: record A published 3600 s = 1 h earlier
with engagement 600, a high-quality-list source and a 150-character
summary; record B published 216000 s = 60 h earlier with engagement 10, an
unlisted source and an empty summary); and every record's score lies in
[10, 110]. -/
theorem c5_score_buckets :
    (∀ (a : Article) (now : ℚ), calculate_score a now =
        recency_score a.published now + engagement_score a.engagement +
          source_score a.source + summary_quality_score a.summary) ∧
      calculate_score recordA 1000000 = 110 ∧
      calculate_score recordB 1000000 = 10 ∧
      (∀ (a : Article) (now : ℚ),
        10 ≤ calculate_score a now ∧ calculate_score a now ≤ 110) := by
  refine ⟨fun a now => rfl, ?_, ?_, ?_⟩
  · norm_num [calculate_score, recency_score, engagement_score, source_score,
      summary_quality_score, recordA, baseArticle, high_quality_sources,
      rss_news_sources]
  · norm_num [calculate_score, recency_score, engagement_score, source_score,
      summary_quality_score, recordB, baseArticle, high_quality_sources,
      rss_news_sources]
    decide
  intro a now
  have hr := recency_score_bounds a.published now
  have he := engagement_score_bounds a.engagement
  have hs := source_score_bounds a.source
  have hq := summary_quality_score_bounds a.summary
  unfold calculate_score
  constructor <;> linarith

theorem engagement_score_mono (e1 e2 : ℤ) (h : e2 ≤ e1) :
    engagement_score e2 ≤ engagement_score e1 := by
  unfold engagement_score
  split_ifs <;> first | (exfalso; omega) | norm_num

theorem recency_score_mono (p1 p2 now : ℚ) (h : p2 ≤ p1) :
    recency_score p2 now ≤ recency_score p1 now := by
  have hh : (now - p1) / 3600 ≤ (now - p2) / 3600 := by linarith
  simp only [recency_score]
  split_ifs <;> first | (exfalso; linarith) | norm_num

/-- C7: `calculate_score` is monotone in engagement (all other fields
fixed, a strictly larger engagement never lowers the score) and in recency
(all other fields fixed, a more recent `published` timestamp never lowers
the score, both evaluated at the same `now`). -/
theorem c7_score_monotone :
    (∀ (a : Article) (e1 e2 : ℤ) (now : ℚ), e2 < e1 →
        calculate_score { a with engagement := e2 } now ≤
          calculate_score { a with engagement := e1 } now) ∧
    (∀ (a : Article) (p1 p2 now : ℚ), p2 < p1 →
        calculate_score { a with published := p2 } now ≤
          calculate_score { a with published := p1 } now) := by
  constructor
  · intro a e1 e2 now h
    have hm := engagement_score_mono e1 e2 (le_of_lt h)
    unfold calculate_score
    dsimp only
    linarith
  · intro a p1 p2 now h
    have hm := recency_score_mono p1 p2 now (le_of_lt h)
    unfold calculate_score
    dsimp only
    linarith

theorem c7_score_monotone_witness :
    calculate_score { baseArticle with engagement := 10 } 0 ≤
        calculate_score { baseArticle with engagement := 600 } 0 ∧
      calculate_score { baseArticle with published := -7200 } 0 ≤
        calculate_score { baseArticle with published := -3600 } 0 :=
  ⟨c7_score_monotone.1 baseArticle 600 10 0 (by decide),
   c7_score_monotone.2 baseArticle (-3600) (-7200) 0 (by decide)⟩

/-! ## Deduplicator properties (C4, C6, C10) -/

/-- C4: `deduplicate_articles` scans in input order and discards a
candidate exactly when its lower-cased title has similarity ratio
strictly above 0.6 with the lower-cased title of some previously accepted
record (first conjunct: the one-step characterization of the scan).  In
particular, of two records it keeps only the first when their titles'
ratio exceeds 0.6 and keeps both otherwise (second conjunct). -/
theorem c4_dedup_threshold :
    (∀ (seen : List (List Char)) (a : Article) (rest : List Article),
        dedupAux seen (a :: rest) =
          if seen.any (fun s => decide ((3 : ℚ) / 5 < similarity (lowered a) s)) then
            dedupAux seen rest
          else a :: dedupAux (seen ++ [lowered a]) rest) ∧
    (∀ r1 r2 : Article,
        deduplicate_articles [r1, r2] =
          if (3 : ℚ) / 5 < similarity (lowered r2) (lowered r1) then [r1]
          else [r1, r2]) := by
  constructor
  · intro seen a rest
    rfl
  · intro r1 r2
    by_cases h : (3 : ℚ) / 5 < similarity (lowered r2) (lowered r1) <;>
      simp [deduplicate_articles, dedupAux, h]

theorem dedupAux_idem (l : List Article) :
    ∀ seen, dedupAux seen (dedupAux seen l) = dedupAux seen l := by
  induction l with
  | nil => intro seen; rfl
  | cons a rest ih =>
    intro seen
    have step : ∀ tl, dedupAux seen (a :: tl) =
        if seen.any (fun s => decide ((3 : ℚ) / 5 < similarity (lowered a) s)) then
          dedupAux seen tl
        else a :: dedupAux (seen ++ [lowered a]) tl := fun tl => rfl
    by_cases h :
        (seen.any fun s => decide ((3 : ℚ) / 5 < similarity (lowered a) s)) = true
    · rw [step rest, if_pos h]
      exact ih seen
    · rw [step rest, if_neg h, step (dedupAux (seen ++ [lowered a]) rest), if_neg h]
      exact congrArg (a :: ·) (ih (seen ++ [lowered a]))

/-- C6: `deduplicate_articles` is idempotent: re-running it on its own
output returns that output unchanged, for every input list. -/
theorem c6_dedup_idempotent (l : List Article) :
    deduplicate_articles (deduplicate_articles l) = deduplicate_articles l :=
  dedupAux_idem l []

theorem dedupAux_no_empty_title (l : List Article) :
    ∀ seen, [] ∈ seen →
      ((dedupAux seen l).filter (fun a => a.title == [])).length = 0 := by
  induction l with
  | nil => intro seen _; rfl
  | cons a rest ih =>
    intro seen hseen
    have step : ∀ tl, dedupAux seen (a :: tl) =
        if seen.any (fun s => decide ((3 : ℚ) / 5 < similarity (lowered a) s)) then
          dedupAux seen tl
        else a :: dedupAux (seen ++ [lowered a]) tl := fun tl => rfl
    by_cases h :
        (seen.any fun s => decide ((3 : ℚ) / 5 < similarity (lowered a) s)) = true
    · rw [step rest, if_pos h]
      exact ih seen hseen
    · rw [step rest, if_neg h]
      have ha : ¬a.title = [] := by
        intro he
        apply h
        refine List.any_eq_true.mpr ⟨[], hseen, ?_⟩
        have hl : lowered a = [] := by simp [lowered, he]
        rw [hl]
        norm_num [similarity]
      rw [List.filter_cons]
      have hb : (a.title == ([] : List Char)) = false := by
        simpa using ha
      rw [hb]
      simp only [Bool.false_eq_true, if_false]
      exact ih (seen ++ [lowered a]) (List.mem_append_left _ hseen)

theorem dedupAux_at_most_one_empty_title (l : List Article) :
    ∀ seen, ((dedupAux seen l).filter (fun a => a.title == [])).length ≤ 1 := by
  induction l with
  | nil => intro seen; simp [dedupAux]
  | cons a rest ih =>
    intro seen
    have step : ∀ tl, dedupAux seen (a :: tl) =
        if seen.any (fun s => decide ((3 : ℚ) / 5 < similarity (lowered a) s)) then
          dedupAux seen tl
        else a :: dedupAux (seen ++ [lowered a]) tl := fun tl => rfl
    by_cases h :
        (seen.any fun s => decide ((3 : ℚ) / 5 < similarity (lowered a) s)) = true
    · rw [step rest, if_pos h]
      exact ih seen
    · rw [step rest, if_neg h, List.filter_cons]
      by_cases he : a.title = []
      · have hb : (a.title == ([] : List Char)) = true := by simpa using he
        rw [hb]
        simp only [if_true, List.length_cons]
        have hz := dedupAux_no_empty_title rest (seen ++ [lowered a])
          (by
            have hl : lowered a = [] := by simp [lowered, he]
            rw [← hl]
            exact List.mem_append_right _ (List.mem_singleton_self _))
        omega
      · have hb : (a.title == ([] : List Char)) = false := by simpa using he
        rw [hb]
        simp only [Bool.false_eq_true, if_false]
        exact ih (seen ++ [lowered a])

/-- C10: at most one record with an empty title survives
`deduplicate_articles`: two empty titles have similarity ratio exactly 1
(the `_calculate_ratio` special case for two empty sequences), which
exceeds the 0.6 threshold, so every empty-titled record after the first
accepted one is discarded as a duplicate. -/
theorem c10_empty_titles (l : List Article) :
    ((deduplicate_articles l).filter (fun a => a.title == [])).length ≤ 1 ∧
      similarity [] [] = 1 :=
  ⟨dedupAux_at_most_one_empty_title l [], rfl⟩

/-! ## Enricher batch deadline (C1) -/

/-- C1: the claim states `enrich_summaries` never raises when the
30-second batch deadline elapses with tasks still running.  In the code
the `TimeoutError` raised by `as_completed(futures, timeout=30)` escapes:
the `try/except` inside the loop guards only `future.result()`, not the
iteration itself.  This theorem evaluates the embedded function at a
failing input — a single record needing a summary whose fetch task is
still unfinished at the deadline — and shows the call ends in the
exceptional branch rather than returning the record list. -/
theorem c1_batch_timeout_raises :
    enrich_summaries (fun l => l) (fun _ => HttpResult.failure)
        (fun _ => false) [baseArticle] = Except.error () := by
  rfl

/-! ## Enricher non-destructiveness (C8) -/

theorem applySel_length (f : Article → Article) (sel : List Nat) :
    ∀ (i : Nat) (l : List Article), (applySel f sel i l).length = l.length := by
  intro i l
  induction l generalizing i with
  | nil => rfl
  | cons a rest ih => simp [applySel, ih]

theorem applySel_get (f : Article → Article) (sel : List Nat) :
    ∀ (l : List Article) (i k : Nat) (h : k < l.length)
      (h2 : k < (applySel f sel i l).length),
      (applySel f sel i l).get ⟨k, h2⟩ =
        if (i + k) ∈ sel then f (l.get ⟨k, h⟩) else l.get ⟨k, h⟩ := by
  intro l
  induction l with
  | nil => intro i k h _; exact absurd h (by simp)
  | cons a rest ih =>
    intro i k h h2
    cases k with
    | zero => simp [applySel]
    | succ k =>
      have hr : k < rest.length := by
        simpa using Nat.lt_of_succ_lt_succ h
      have hr2 : k < (applySel f sel (i + 1) rest).length := by
        rw [applySel_length]; exact hr
      have := ih (i + 1) k hr hr2
      have harith : i + 1 + k = i + (k + 1) := by omega
      rw [harith] at this
      simpa [applySel, List.get_cons_succ] using this

theorem fetch_one_eq_self (clean : List Char → List Char)
    (env : String → HttpResult) (a : Article)
    (h : fetch_article_summary clean (env a.link) = []) :
    fetch_one clean env a = a := by
  simp [fetch_one, h]

theorem selectedIdx_eq_nil_of_no_fetch (articles : List Article)
    (h : articles.filter needsFetch = []) : selectedIdx articles = [] := by
  have henum : (articles.enum).filter (fun p => needsFetch p.2) = [] := by
    rw [List.filter_eq_nil_iff]
    intro p hp
    have hmem : p.2 ∈ articles := by
      rw [← List.enum_map_snd articles]
      exact List.mem_map_of_mem Prod.snd hp
    exact List.filter_eq_nil_iff.mp h p.2 hmem
  simp [selectedIdx, henum]

/-- C8: enrichment is non-destructive on failure.  Whenever
`enrich_summaries` returns normally, the output list has the same length
as the input, the record at each position is exactly `fetch_one` of the
input record when that position was submitted to the pool and the
untouched input record otherwise (each task reads and writes only its own
record, so no record's failure affects any other), and in particular any
record whose fetch fails or yields no usable field
(`fetch_article_summary` returns the empty string) keeps its
pre-enrichment `summary` and `needs_summary` values. -/
theorem c8_enrich_nondestructive (clean : List Char → List Char)
    (env : String → HttpResult) (completed : Nat → Bool)
    (articles res : List Article)
    (h : enrich_summaries clean env completed articles = Except.ok res) :
    res.length = articles.length ∧
    (∀ (k : Nat) (hk : k < articles.length) (hk2 : k < res.length),
        res.get ⟨k, hk2⟩ =
          if k ∈ selectedIdx articles then
            fetch_one clean env (articles.get ⟨k, hk⟩)
          else articles.get ⟨k, hk⟩) ∧
    (∀ (k : Nat) (hk : k < articles.length) (hk2 : k < res.length),
        fetch_article_summary clean (env ((articles.get ⟨k, hk⟩).link)) = [] →
          res.get ⟨k, hk2⟩ = articles.get ⟨k, hk⟩) := by
  have main : res.length = articles.length ∧
      (∀ (k : Nat) (hk : k < articles.length) (hk2 : k < res.length),
        res.get ⟨k, hk2⟩ =
          if k ∈ selectedIdx articles then
            fetch_one clean env (articles.get ⟨k, hk⟩)
          else articles.get ⟨k, hk⟩) := by
    simp only [enrich_summaries] at h
    by_cases hempt : (articles.filter needsFetch).isEmpty
    · rw [if_pos hempt] at h
      have hres : articles = res := by simpa using h
      subst hres
      have hsel : selectedIdx articles = [] :=
        selectedIdx_eq_nil_of_no_fetch articles (List.isEmpty_iff.mp hempt)
      refine ⟨rfl, ?_⟩
      intro k hk hk2
      rw [hsel]
      simp
    · rw [if_neg hempt] at h
      by_cases hall : (selectedIdx articles).all completed
      · rw [if_pos hall] at h
        have hres : applySel (fetch_one clean env) (selectedIdx articles) 0 articles
            = res := by simpa using h
        subst hres
        refine ⟨applySel_length _ _ 0 articles, ?_⟩
        intro k hk hk2
        have := applySel_get (fetch_one clean env) (selectedIdx articles)
          articles 0 k hk hk2
        simpa using this
      · rw [if_neg hall] at h
        exact absurd h (by simp)
  refine ⟨main.1, main.2, ?_⟩
  intro k hk hk2 hf
  rw [main.2 k hk hk2]
  split_ifs with hs
  · exact fetch_one_eq_self clean env _ hf
  · rfl

theorem c8_enrich_witness :
    ([baseArticle] : List Article).length = ([baseArticle] : List Article).length ∧
    (∀ (k : Nat) (hk : k < ([baseArticle] : List Article).length)
        (hk2 : k < ([baseArticle] : List Article).length),
        (([baseArticle] : List Article).get ⟨k, hk2⟩) =
          if k ∈ selectedIdx [baseArticle] then
            fetch_one (fun l => l) (fun _ => HttpResult.failure)
              (([baseArticle] : List Article).get ⟨k, hk⟩)
          else ([baseArticle] : List Article).get ⟨k, hk⟩) ∧
    (∀ (k : Nat) (hk : k < ([baseArticle] : List Article).length)
        (hk2 : k < ([baseArticle] : List Article).length),
        fetch_article_summary (fun l => l)
            ((fun _ => HttpResult.failure) ((([baseArticle] : List Article).get ⟨k, hk⟩).link)) = [] →
          (([baseArticle] : List Article).get ⟨k, hk2⟩) =
            ([baseArticle] : List Article).get ⟨k, hk⟩) :=
  c8_enrich_nondestructive (fun l => l) (fun _ => HttpResult.failure)
    (fun _ => true) [baseArticle] [baseArticle] rfl

/-! ## Ranker/Grouper (C9) -/

theorem email_groups_fst (articles : List Article) :
    ∀ cats : List String,
      (cats.filterMap (fun cat =>
          if (bucket articles cat).isEmpty then none
          else some (cat, (bucket articles cat).take 5))).map Prod.fst =
        cats.filter (fun cat => !(bucket articles cat).isEmpty) := by
  intro cats
  induction cats with
  | nil => rfl
  | cons c cs ih =>
    by_cases h : (bucket articles c).isEmpty
    · simp only [List.filterMap_cons, List.filter_cons, h]
      simpa using ih
    · simp only [List.filterMap_cons, List.filter_cons]
      simp only [Bool.not_eq_true] at h
      simp only [h, Bool.false_eq_true, if_false, Bool.not_false, if_true,
        List.map_cons]
      simpa using ih

/-- C9: on a deduplicated input already sorted by descending score,
the grouping rendered by `format_html_email` emits the non-empty
categories in the fixed order New Technology, Research, Industry & Macro,
Community Highlights, omitting empty ones (first conjunct); and each
emitted bucket is the order-preserving category filter capped at its
first 5 records, hence has at most 5 records, is itself in descending
score order, and score-dominates every record of its category that the
cap discarded (second conjunct). -/
theorem c9_grouping (articles : List Article)
    (hsorted : articles.Pairwise (fun a b => b.score ≤ a.score)) :
    ((email_groups articles).map Prod.fst =
        category_order.filter (fun cat => !(bucket articles cat).isEmpty)) ∧
    (∀ (cat : String) (bkt : List Article), (cat, bkt) ∈ email_groups articles →
        bkt = (bucket articles cat).take 5 ∧
        bkt.length ≤ 5 ∧
        bkt.Pairwise (fun a b => b.score ≤ a.score) ∧
        ∀ x ∈ bkt, ∀ y ∈ (bucket articles cat).drop 5, y.score ≤ x.score) := by
  constructor
  · exact email_groups_fst articles category_order
  · intro cat bkt hmem
    obtain ⟨c, _, hfc⟩ := List.mem_filterMap.mp hmem
    by_cases h : (bucket articles c).isEmpty
    · rw [if_pos h] at hfc
      cases hfc
    · rw [if_neg h] at hfc
      have hpair : (c, (bucket articles c).take 5) = (cat, bkt) :=
        Option.some.inj hfc
      have hc2 : c = cat := congrArg Prod.fst hpair
      subst hc2
      have hb2 : (bucket articles c).take 5 = bkt := congrArg Prod.snd hpair
      subst hb2
      refine ⟨rfl, List.length_take_le 5 _, ?_, ?_⟩
      · exact List.Pairwise.sublist (List.take_sublist 5 _) (hsorted.filter _)
      · intro x hx y hy
        have hb : (bucket articles c).Pairwise (fun a b => b.score ≤ a.score) :=
          hsorted.filter _
        have hsplit := List.take_append_drop 5 (bucket articles c)
        rw [← hsplit] at hb
        exact (List.pairwise_append.mp hb).2.2 x hx y hy

theorem c9_grouping_witness :
    ((email_groups [researchA, researchB]).map Prod.fst =
        category_order.filter
          (fun cat => !(bucket [researchA, researchB] cat).isEmpty)) ∧
    (∀ (cat : String) (bkt : List Article),
        (cat, bkt) ∈ email_groups [researchA, researchB] →
        bkt = (bucket [researchA, researchB] cat).take 5 ∧
        bkt.length ≤ 5 ∧
        bkt.Pairwise (fun a b => b.score ≤ a.score) ∧
        ∀ x ∈ bkt, ∀ y ∈ (bucket [researchA, researchB] cat).drop 5,
          y.score ≤ x.score) :=
  c9_grouping [researchA, researchB]
    (by
      refine List.Pairwise.cons ?_ (List.pairwise_singleton _ _)
      intro x hx
      rw [List.mem_singleton.mp hx]
      norm_num [researchA, researchB, baseArticle])

end NewsDigest
